/-
Verification of the localization workflow scripts
(`scripts/i18n_workflow.py` and `scripts/localize_with_openai.py`).

Strings are modelled as `List Char` (Python `str` is a sequence of Unicode
code points); the two regular expressions used by the scripts
(`FORMAT_PLACEHOLDER_RE` and `INTERPOLATION_RE`) are modelled by
deterministic scanners that implement exactly the matches the Python
`re.findall` produces for these patterns (both patterns are deterministic:
no backtracking of theirs can turn a failed greedy parse into a success,
because the final character classes are disjoint from the repeatable ones).
Python dicts are modelled as association lists with in-place update
(`alSet`), preserving insertion order exactly as CPython does.
-/
import Mathlib

set_option maxHeartbeats 1000000

/-- Python `str.strip()` whitespace predicate: the characters removed by
`strip` with no arguments (ASCII whitespace plus the Unicode space
characters recognized by `str.isspace`). -/
def isPyWs (c : Char) : Bool :=
  let n := c.toNat
  n = 0x20 || (0x9 <= n && n <= 0xd) || (0x1c <= n && n <= 0x1f) ||
  n = 0x85 || n = 0xa0 || n = 0x1680 || (0x2000 <= n && n <= 0x200a) ||
  n = 0x2028 || n = 0x2029 || n = 0x202f || n = 0x205f || n = 0x3000

/-- Python `text.strip()`: drop leading and trailing whitespace. -/
def pyStrip (l : List Char) : List Char :=
  ((l.dropWhile isPyWs).reverse.dropWhile isPyWs).reverse

/-- Python `str.lower()` restricted to ASCII and Latin-1 letters (the
alphabets occurring in the scripts' string data); other characters are
returned unchanged. -/
def pyLower (c : Char) : Char :=
  if ('A' ≤ c ∧ c ≤ 'Z') ∨ (0xC0 ≤ c.toNat ∧ c.toNat ≤ 0xDE ∧ c.toNat ≠ 0xD7) then
    Char.ofNat (c.toNat + 32)
  else c

/-- Lower-cased copy of a string, as used by the `key=lambda ...lower()`
sort keys in both scripts. -/
def strLower (l : List Char) : List Char := l.map pyLower

/-- Python string comparison: lexicographic on Unicode code points. -/
def lexLe : List Char → List Char → Bool
  | [], _ => true
  | _ :: _, [] => false
  | a :: as, b :: bs =>
    if a.toNat < b.toNat then true
    else if b.toNat < a.toNat then false
    else lexLe as bs

/-- Case-insensitive string comparison: compare the `lower()` images,
the sort key used by `build_candidates` and `update_catalog`. -/
def ciLe (a b : List Char) : Bool := lexLe (strLower a) (strLower b)

/-- Consume the literal `pre` from the front of `l`, returning the rest. -/
def stripLit : List Char → List Char → Option (List Char)
  | [], l => some l
  | _ :: _, [] => none
  | p :: ps, c :: cs => if p = c then stripLit ps cs else none

/-- Python `pat in text` substring test. -/
def hasSub (pat : List Char) : List Char → Bool
  | [] => pat.isEmpty
  | l@(_ :: rest) => (stripLit pat l).isSome || hasSub pat rest

/-- Lookup in an association list (first matching key), the model of
Python `dict.get`. -/
def alLookup {κ β : Type} [DecidableEq κ] (k : κ) : List (κ × β) → Option β
  | [] => none
  | (k', v) :: rest => if k' = k then some v else alLookup k rest

/-- Python `dict.get(k, d)`. -/
def alLookupD {κ β : Type} [DecidableEq κ] (k : κ) (d : β) (l : List (κ × β)) : β :=
  (alLookup k l).getD d

/-- Python `dict[k] = v`: replace the value in place if the key exists
(preserving its position), otherwise append the new pair at the end,
exactly the CPython insertion-order semantics. -/
def alSet {κ β : Type} [DecidableEq κ] (k : κ) (v : β) : List (κ × β) → List (κ × β)
  | [] => [(k, v)]
  | (k', v') :: rest => if k' = k then (k, v) :: rest else (k', v') :: alSet k v rest

/-- Characters accepted by the flag class `[#+0\- ]` of
`FORMAT_PLACEHOLDER_RE`. -/
def isFmtFlag (c : Char) : Bool :=
  c = '#' || c = '+' || c = '0' || c = '-' || c = ' '

/-- Characters accepted by the conversion class `[a-zA-Z@]` of
`FORMAT_PLACEHOLDER_RE`. -/
def isFmtConv (c : Char) : Bool :=
  ('a' ≤ c && c ≤ 'z') || ('A' ≤ c && c ≤ 'Z') || c = '@'

/-- ASCII digit test, the `\d` class of the placeholder pattern. -/
def isAsciiDigit (c : Char) : Bool := '0' ≤ c && c ≤ '9'

/-- Match the part of `FORMAT_PLACEHOLDER_RE` after the leading `%`:
`(?:\d+\$)?[#+0\- ]*(?:\d+)?(?:\.\d+)?[a-zA-Z@]`.  Returns the matched
characters and the remaining input.  The greedy parse is exact for this
pattern because the conversion class is disjoint from every repeatable
class, so the regex engine's backtracking can never rescue a failure. -/
def matchAfterPercent (l : List Char) : Option (List Char × List Char) :=
  let ds := l.takeWhile isAsciiDigit
  let r1 := l.dropWhile isAsciiDigit
  let (pos, rest1) :=
    match ds, r1 with
    | _ :: _, '$' :: r => (ds ++ ['$'], r)
    | _, _ => (([] : List Char), l)
  let fl := rest1.takeWhile isFmtFlag
  let rest2 := rest1.dropWhile isFmtFlag
  let w := rest2.takeWhile isAsciiDigit
  let rest3 := rest2.dropWhile isAsciiDigit
  let (prec, rest4) :=
    match rest3 with
    | '.' :: r =>
      match r.takeWhile isAsciiDigit, r.dropWhile isAsciiDigit with
      | [], _ => (([] : List Char), rest3)
      | pd@(_ :: _), pr => ('.' :: pd, pr)
    | _ => (([] : List Char), rest3)
  match rest4 with
  | c :: r5 => if isFmtConv c then some (pos ++ fl ++ w ++ prec ++ [c], r5) else none
  | [] => none

/-- Fuel-indexed scanner for `FORMAT_PLACEHOLDER_RE.findall`: at each
position try to match a placeholder starting with `%`; on success continue
after the match, otherwise advance one character. -/
def findPlaceholdersAux : Nat → List Char → List (List Char)
  | 0, _ => []
  | _, [] => []
  | fuel + 1, c :: rest =>
    if c = '%' then
      match matchAfterPercent rest with
      | some (tok, r) => ('%' :: tok) :: findPlaceholdersAux fuel r
      | none => findPlaceholdersAux fuel rest
    else findPlaceholdersAux fuel rest

/-- Model of `FORMAT_PLACEHOLDER_RE.findall(text)`. -/
def findPlaceholders (l : List Char) : List (List Char) :=
  findPlaceholdersAux l.length l

/-- Match the part of `INTERPOLATION_RE` after the leading backslash:
a literal `(`, one or more characters other than `)`, then `)`.  Returns
the full matched token (backslash included) and the remaining input. -/
def matchInterpAt (rest : List Char) : Option (List Char × List Char) :=
  match rest with
  | '(' :: rest2 =>
    match rest2.takeWhile (fun x => x ≠ ')'), rest2.dropWhile (fun x => x ≠ ')') with
    | body@(_ :: _), ')' :: r => some ('\\' :: '(' :: (body ++ [')']), r)
    | _, _ => none
  | _ => none

/-- Fuel-indexed scanner for `INTERPOLATION_RE.findall` with pattern
`\\\([^\)]+\)`: at each position try to match an interpolation span
starting with a backslash; on success continue after the match, otherwise
advance one character. -/
def findInterpolationsAux : Nat → List Char → List (List Char)
  | 0, _ => []
  | _, [] => []
  | fuel + 1, c :: rest =>
    if c = '\\' then
      match matchInterpAt rest with
      | some (tok, r) => tok :: findInterpolationsAux fuel r
      | none => findInterpolationsAux fuel rest
    else findInterpolationsAux fuel rest

/-- Model of `INTERPOLATION_RE.findall(text)`. -/
def findInterpolations (l : List Char) : List (List Char) :=
  findInterpolationsAux l.length l

/-- The fixed unit-symbol tuple `("°F", "°C")` scanned by
`extract_token_set`. -/
def unitSymbols : List (List Char) := [['°', 'F'], ['°', 'C']]

/-- Model of `extract_token_set(text)` (identical in both scripts):
placeholder tuple, interpolation tuple, and the tuple of unit symbols
occurring in the text. -/
def extract_token_set (text : List Char) :
    List (List Char) × List (List Char) × List (List Char) :=
  (findPlaceholders text, findInterpolations text,
   unitSymbols.filter (fun u => hasSub u text))

/-- The validation outcome of `validate_translation`; the mismatch
constructors carry the expected and actual token tuples that the Python
code embeds in its reason string. -/
inductive VReason : Type
  | placeholderMismatch (expected got : List (List Char))
  | interpolationMismatch (expected got : List (List Char))
  | unitMismatch (expected got : List (List Char))
  | emptyTranslation
  | ok
deriving DecidableEq

/-- The fixed prefix of the Python reason string for each outcome. -/
def reasonText : VReason → String
  | .placeholderMismatch _ _ => "placeholder mismatch"
  | .interpolationMismatch _ _ => "interpolation mismatch"
  | .unitMismatch _ _ => "unit mismatch"
  | .emptyTranslation => "empty translation"
  | .ok => "ok"

/-- Model of `validate_translation(source, target)` (identical in both
scripts): compare the token fingerprints in priority order, then reject a
blank candidate. -/
def validate_translation (source target : List Char) : Bool × VReason :=
  let sp := (extract_token_set source).1
  let si := (extract_token_set source).2.1
  let su := (extract_token_set source).2.2
  let tp := (extract_token_set target).1
  let ti := (extract_token_set target).2.1
  let tu := (extract_token_set target).2.2
  if sp ≠ tp then (false, .placeholderMismatch sp tp)
  else if si ≠ ti then (false, .interpolationMismatch si ti)
  else if su ≠ tu then (false, .unitMismatch su tu)
  else if pyStrip target = [] then (false, .emptyTranslation)
  else (true, .ok)

/-- Modelled after spec section 4.3: the ordered list of validation
checks, each paired with the reason reported when it fails.  This is the
spec-side description ("Validation fails, in priority order, when ...")
used to state claim C4 as a refinement. -/
def specCheckList (source target : List Char) : List (Bool × VReason) :=
  [ (decide ((extract_token_set source).1 = (extract_token_set target).1),
     .placeholderMismatch (extract_token_set source).1 (extract_token_set target).1),
    (decide ((extract_token_set source).2.1 = (extract_token_set target).2.1),
     .interpolationMismatch (extract_token_set source).2.1 (extract_token_set target).2.1),
    (decide ((extract_token_set source).2.2 = (extract_token_set target).2.2),
     .unitMismatch (extract_token_set source).2.2 (extract_token_set target).2.2),
    (decide (¬ pyStrip target = []), .emptyTranslation) ]

/-- Modelled after spec section 4.3: report the first failing check of an
ordered check list; if no check fails the outcome is ok. -/
def firstFailing : List (Bool × VReason) → Bool × VReason
  | [] => (true, .ok)
  | (pass, r) :: rest => if pass then firstFailing rest else (false, r)

/-- Model of the `Context` dataclass: where a string literal was found. -/
structure Context where
  file : List Char
  line : Nat
  kind : List Char
  target : List Char
deriving DecidableEq

/-- Model of the `Candidate` dataclass: a unique source text with its
origin contexts. -/
structure Candidate where
  source : List Char
  contexts : List Context
deriving DecidableEq

/-- Model of the `TranslationRow` dataclass produced by
`translate_candidates` in `i18n_workflow.py`. -/
structure TranslationRow where
  source : List Char
  target : List Char
  status : String
  validation : String
  contexts : List Context
deriving DecidableEq

/-- `BATCH_SIZE` of `i18n_workflow.py`. -/
def BATCH_SIZE : Nat := 30

/-- `MAX_RETRIES` (identical in both scripts). -/
def MAX_RETRIES : Nat := 2

/-- Fuel-indexed model of `chunked(values, size)`: consecutive slices of
`size` elements (the fuel equals the list length, enough for any positive
size). -/
def chunkedAux {α : Type} : Nat → List α → Nat → List (List α)
  | _, [], _ => []
  | 0, _ :: _, _ => []
  | fuel + 1, c :: rest, size =>
    (c :: rest).take size :: chunkedAux fuel ((c :: rest).drop size) size

/-- Model of `chunked(values, size)` from both scripts. -/
def chunked {α : Type} (values : List α) (size : Nat) : List (List α) :=
  chunkedAux values.length values size

/-- The translation service boundary: given the pending source texts and
the optional validation feedback from the previous attempt, return the
source-to-target mapping parsed from the response.  (The Python code
serializes the feedback into an English sentence; the model passes the
structured issue list the sentence is built from.  Transport failures
raise and abort the whole run in the code, so the oracle here models only
successful responses.) -/
def Oracle : Type :=
  List (List Char) → Option (List (List Char × VReason)) → List (List Char × List Char)

/-- One validation pass over the pending sources of a batch, the body of
the `for source in pending` loop inside `translate_candidates` (identical
in both scripts): each source's target defaults to the source itself when
the mapping has no value for it; validated sources are finalized, failing
sources are carried with their reasons. -/
def attemptStep (translated : List (List Char × List Char)) :
    List (List Char) →
    List (List Char × List Char) × List (List Char) × List (List Char × VReason)
  | [] => ([], [], [])
  | s :: rest =>
    let t := alLookupD s s translated
    let v := validate_translation s t
    let acc := attemptStep translated rest
    if v.1 then ((s, t) :: acc.1, acc.2.1, acc.2.2)
    else (acc.1, s :: acc.2.1, (s, v.2) :: acc.2.2)

/-- The per-batch retry loop of `translate_candidates` (`for attempt in
range(MAX_RETRIES + 1)`), started with fuel `MAX_RETRIES + 1`; at entry
fuel `f + 1` the Python loop index is `attempt = MAX_RETRIES - f`, so
`attempt < MAX_RETRIES` is `f ≠ 0`.  Returns the finalized
(source, target, validation) triples of the batch together with the
number of service calls issued for the batch. -/
def batchLoop (oracle : Oracle) :
    Nat → List (List Char) → Option (List (List Char × VReason)) →
    List (List Char × List Char × String) × Nat
  | 0, _, _ => ([], 0)
  | fuel + 1, pending, feedback =>
    if pending = [] then ([], 0)
    else
      let translated := oracle pending feedback
      let step := attemptStep translated pending
      let fin := step.1.map (fun p => (p.1, p.2, "ok"))
      if step.2.1 ≠ [] ∧ fuel ≠ 0 then
        let rest := batchLoop oracle fuel step.2.1 (some step.2.2)
        (fin ++ rest.1, rest.2 + 1)
      else
        (fin ++ step.2.1.map (fun s => (s, s, "fallback_due_to_validation")), 1)

/-- Run every batch through the retry loop in order, accumulating the
finalized triples and the total number of service calls. -/
def runBatches (oracle : Oracle) : List (List (List Char)) →
    List (List Char × List Char × String) × Nat
  | [] => ([], 0)
  | b :: rest =>
    let r := batchLoop oracle (MAX_RETRIES + 1) b none
    let rs := runBatches oracle rest
    (r.1 ++ rs.1, r.2 + rs.2)

/-- Model of `translate_candidates` from `i18n_workflow.py`: chunk the
candidate sources into batches of `BATCH_SIZE`, drive the bounded retry
loop per batch, then build one `TranslationRow` per candidate from the
accumulated `final_targets`/`validations` dictionaries (modelled as one
association list of (target, validation) pairs filled in finalization
order). -/
def translate_candidates (oracle : Oracle) (candidates : List Candidate) :
    List TranslationRow × Nat :=
  let r := runBatches oracle (chunked (candidates.map Candidate.source) BATCH_SIZE)
  let fm := r.1.foldl (fun m a => alSet a.1 a.2 m) []
  let rows := candidates.map (fun cand =>
    let tv := alLookupD cand.source (cand.source, "fallback_missing_translation") fm
    { source := cand.source
      target := tv.1
      status := if tv.1 ≠ cand.source then "translated" else "fallback"
      validation := tv.2
      contexts := cand.contexts })
  (rows, r.2)

/-- An oracle that maps every pending source to itself, the "identity
translations only" service of claim C1. -/
def idOracle : Oracle := fun ps _ => ps.map (fun s => (s, s))

/-- Insert `x` into `l` before the first element `y` with `le x y`
failing to order `y` strictly earlier — the insertion step of a stable
insertion sort. -/
def orderedInsertB {α : Type} (le : α → α → Bool) (x : α) : List α → List α
  | [] => [x]
  | y :: ys => if le x y then x :: y :: ys else y :: orderedInsertB le x ys

/-- Stable sort modelling Python's `sorted(l, key=...)`: for any total
and transitive comparison, a stable sort's output is uniquely determined,
so this structurally recursive insertion sort computes exactly the list
CPython's stable mergesort produces. -/
def pySorted {α : Type} (le : α → α → Bool) (l : List α) : List α :=
  l.foldr (orderedInsertB le) []

/-- The `defaultdict(list)` accumulator: append `v` to the group of `k`
if the key exists (keeping its position), otherwise add a new group at
the end — CPython dict insertion-order semantics. -/
def alAppendGroup {κ β : Type} [DecidableEq κ] (k : κ) (v : β) :
    List (κ × List β) → List (κ × List β)
  | [] => [(k, [v])]
  | (k', vs) :: rest =>
    if k' = k then (k', vs ++ [v]) :: rest else (k', vs) :: alAppendGroup k v rest

/-- Group a pair list by key in first-occurrence order, the
`defaultdict(list)` accumulation used by both aggregators. -/
def groupPairs {κ β : Type} [DecidableEq κ] (pairs : List (κ × β)) :
    List (κ × List β) :=
  pairs.foldl (fun acc p => alAppendGroup p.1 p.2 acc) []

/-- The context sort key `(c.file, c.line, c.kind, c.target)` of
`build_candidates`, as a lexicographic comparison on the quadruple. -/
def ctxLe (a b : Context) : Bool :=
  if a.file ≠ b.file then lexLe a.file b.file
  else if a.line ≠ b.line then decide (a.line ≤ b.line)
  else if a.kind ≠ b.kind then lexLe a.kind b.kind
  else lexLe a.target b.target

/-- Model of the aggregation step of `build_candidates` in
`i18n_workflow.py` (lines 397-415): group the collected (text, context)
pairs by exact text, sort the groups by the case-insensitive key
`item[0].lower()`, and for each group keep the deduplicated contexts
sorted by `(file, line, kind, target)`. -/
def build_candidates_from_pairs (pairs : List (List Char × Context)) :
    List Candidate :=
  (pySorted (fun a b => ciLe a.1 b.1) (groupPairs pairs)).map
    (fun g => { source := g.1, contexts := pySorted ctxLe g.2.dedup })

/-- The `SPANISH_KEYWORDS` set of `localize_with_openai.py`. -/
def SPANISH_KEYWORDS : List String :=
  ["agregar", "busca", "buscar", "ciudad", "ciudades", "cancelar",
   "actualizar", "zona horaria", "conversor", "sin resultados", "intenta",
   "permiso", "ubicación", "ajustes", "muestra", "desliza",
   "tiempo mundial", "cerrar", "limpiar", "máximo", "esta ciudad",
   "no se pudo", "obteniendo", "solicitando", "lugar", "lugares"]

/-- The diacritic probe characters of `is_spanish_like`. -/
def spanishDiacritics : List Char := ['á', 'é', 'í', 'ó', 'ú', 'ñ', '¿', '¡']

/-- Model of `is_spanish_like(text)`. -/
def is_spanish_like (text : List Char) : Bool :=
  let lower := strLower text
  if spanishDiacritics.any (fun ch => lower.contains ch) then true
  else SPANISH_KEYWORDS.any (fun tok => hasSub tok.data lower)

/-- Model of `should_include_for_source_lang(text, source_lang)`. -/
def should_include_for_source_lang (text source_lang : List Char) : Bool :=
  if strLower source_lang = "es".data then is_spanish_like text else true

/-- Model of the aggregation step of `extract_candidates` in
`localize_with_openai.py` (lines 134-173): the `add` helper drops blank
texts and texts rejected by the source-language heuristic, groups the
rest by exact text, and the result is `sorted(buckets.items())` — plain
code-point order on the source text (unique keys make the tuple
comparison never reach the contexts). -/
def extract_candidates (pairs : List (List Char × Context))
    (source_lang : List Char) : List Candidate :=
  let buckets := pairs.foldl (fun acc p =>
    if pyStrip p.1 = [] then acc
    else if ¬ should_include_for_source_lang p.1 source_lang then acc
    else alAppendGroup p.1 p.2 acc) []
  (pySorted (fun a b => lexLe a.1 b.1) buckets).map
    (fun g => { source := g.1, contexts := g.2 })

/-- A fixed context for concrete aggregation inputs. -/
def sampleCtx : Context :=
  { file := "V.swift".data, line := 1, kind := "Text".data, target := "app".data }

/-- Model of a `stringUnit` JSON object inside a String Catalog
localization (both fields optional, as `dict.get` treats them). -/
structure StringUnit where
  state : Option String
  value : Option String
deriving DecidableEq

/-- Model of one per-language localization value: a JSON object that may
or may not carry a `stringUnit`. -/
structure LocEntry where
  stringUnit : Option StringUnit
deriving DecidableEq

/-- Model of one catalog string entry: optional `extractionState` and an
optional `localizations` object mapping language codes to `LocEntry`. -/
structure CatEntry where
  extractionState : Option String
  localizations : Option (List (String × LocEntry))
deriving DecidableEq

/-- Model of a persisted `Localizable.xcstrings` catalog. -/
structure Catalog where
  sourceLanguage : String
  strings : List (String × CatEntry)
  version : String
deriving DecidableEq

/-- The `stringUnit` written for a fresh translation:
`{"state": "translated", "value": v}`. -/
def translatedUnit (v : String) : LocEntry :=
  { stringUnit := some { state := some "translated", value := some v } }

/-- The body of the `for source_key, localized_value in translations.items()`
loop of `update_catalog` in `i18n_workflow.py`: `setdefault` the entry
(appending a fresh one when absent), default its `extractionState` to
"manual", read the previously stored value, bump the changed counter when
it differs, and store the new `stringUnit`. -/
def applyTranslations (language : String) :
    List (String × String) → List (String × CatEntry) → Nat →
    List (String × CatEntry) × Nat
  | [], strings, n => (strings, n)
  | (k, v) :: rest, strings, n =>
    let e := (alLookup k strings).getD { extractionState := none, localizations := none }
    let e1 := if e.extractionState = none
      then { e with extractionState := some "manual" } else e
    let locs := e1.localizations.getD []
    let previous := ((alLookup language locs).bind LocEntry.stringUnit).bind StringUnit.value
    let n' := if previous ≠ some v then n + 1 else n
    let e2 : CatEntry :=
      { e1 with localizations := some (alSet language (translatedUnit v) locs) }
    applyTranslations language rest (alSet k e2 strings) n'

/-- The case-insensitive key order used by every catalog write:
`sorted(..., key=lambda item: item[0].lower())`. -/
def catKeyLe (a b : String × CatEntry) : Bool := ciLe a.1.data b.1.data

/-- Model of `update_catalog(catalog_path, language, translations)` in
`i18n_workflow.py` (lines 646-681): load the catalog (or start a fresh
one when the file does not exist), force `sourceLanguage`/`version`,
apply every translation, and persist with keys sorted
case-insensitively.  Returns the persisted catalog and the
changed-entry count. -/
def update_catalog (catalog : Option Catalog) (language : String)
    (translations : List (String × String)) : Catalog × Nat :=
  let cat := catalog.getD { sourceLanguage := "en", strings := [], version := "1.0" }
  let r := applyTranslations language translations cat.strings 0
  ({ sourceLanguage := "en", strings := pySorted catKeyLe r.1, version := "1.0" }, r.2)

/-- A concrete string-catalog entry used by the catalog witnesses. -/
def zetaEntry : CatEntry := { extractionState := some "stale", localizations := none }

/-- A concrete catalog with a non-default source language and version and
one unrelated entry. -/
def sampleCatalog : Catalog :=
  { sourceLanguage := "fr", strings := [("Zeta", zetaEntry)], version := "2.0" }

/-- ASCII letter test, the `[A-Za-z]` probe of `looks_translatable`. -/
def isAsciiAlpha (c : Char) : Bool :=
  ('A' ≤ c && c ≤ 'Z') || ('a' ≤ c && c ≤ 'z')

/-- The `SKIP_LITERALS` deny-list of `i18n_workflow.py` (SF Symbol
identifiers that must never be treated as user-facing text). -/
def SKIP_LITERALS : List String :=
  ["doc.text.magnifyingglass", "magnifyingglass", "arrow.triangle.2.circlepath",
   "plus.circle.fill", "arrow.left.arrow.right", "doc.text", "doc.badge.gearshape",
   "trash", "location.fill", "clock.fill", "arrow.counterclockwise",
   "globe.americas.fill", "mappin.slash", "mappin.circle.fill", "xmark.circle.fill",
   "line.3.horizontal", "lock.fill", "thermometer.medium", "equal",
   "chevron.right", "xmark", "clock", "gear", "ellipsis.circle", "arrow.clockwise"]

/-- Model of `looks_translatable(text)` from `i18n_workflow.py`: reject
blank strings, deny-listed literals, bare format strings, interpolation-
first strings, and strings with no ASCII letter. -/
def looks_translatable (text : List Char) : Bool :=
  if pyStrip text = [] then false
  else if SKIP_LITERALS.any (fun s => decide (s.data = text)) then false
  else if (match pyStrip text with | '%' :: _ => true | _ => false) then false
  else if (match text with | '\\' :: '(' :: _ => true | _ => false) then false
  else if ¬ text.any isAsciiAlpha then false
  else true

/-- The first required manifest key of `PLIST_KEY_PATTERN`. -/
def K_ALWAYS : String := "NSLocationAlwaysAndWhenInUseUsageDescription"

/-- The second required manifest key of `PLIST_KEY_PATTERN`. -/
def K_WHENINUSE : String := "NSLocationWhenInUseUsageDescription"

/-- The alternation `(NSLocationAlwaysAndWhenInUse...|NSLocationWhenInUse...)`
of `PLIST_KEY_PATTERN`, first branch first (the two diverge at their
eleventh character, so at most one can match). -/
def matchKeyName (l : List Char) : Option (String × List Char) :=
  match stripLit K_ALWAYS.data l with
  | some rest => some (K_ALWAYS, rest)
  | none =>
    match stripLit K_WHENINUSE.data l with
    | some rest => some (K_WHENINUSE, rest)
    | none => none

/-- The quoted-value part `((?:\\.|[^"\\])*)"` of `PLIST_KEY_PATTERN`:
consume escape pairs and ordinary characters up to the closing quote,
returning the raw content (escapes kept verbatim, as in the regex group)
and the input after the quote.  The regex `.` does not match a newline,
and a lone trailing backslash cannot match either alternative. -/
def scanQuotedBody : List Char → Option (List Char × List Char)
  | [] => none
  | '"' :: rest => some ([], rest)
  | '\\' :: c :: rest =>
    if c = '\n' then none
    else (fun p => ('\\' :: c :: p.1, p.2)) <$> scanQuotedBody rest
  | ['\\'] => none
  | c :: rest => (fun p => (c :: p.1, p.2)) <$> scanQuotedBody rest

/-- Match `PLIST_KEY_PATTERN` anchored at the start of `l`: the literal
`INFOPLIST_KEY_`, one of the two key names, `\s*=\s*`, the quoted value,
and the closing `";`.  Returns the key name and the raw value. -/
def matchPlistAt (l : List Char) : Option (String × List Char) := do
  let r1 ← stripLit "INFOPLIST_KEY_".data l
  let (key, r2) ← matchKeyName r1
  let r4 ← stripLit ['='] (r2.dropWhile isPyWs)
  let r6 ← stripLit ['"'] (r4.dropWhile isPyWs)
  let (content, r7) ← scanQuotedBody r6
  let _ ← stripLit [';'] r7
  some (key, content)

/-- Model of `PLIST_KEY_PATTERN.search(line)`: try the anchored match at
every position, leftmost first. -/
def searchPlist : List Char → Option (String × List Char)
  | [] => none
  | l@(_ :: rest) =>
    match matchPlistAt l with
    | some r => some r
    | none => searchPlist rest

/-- The manifest path recorded in every plist context. -/
def PBX_FILE : List Char := "Alexis Farenheit.xcodeproj/project.pbxproj".data

/-- The line scan of `collect_plist_keys`: record the first value seen
per key in `by_key` (`if key_name not in by_key`), and collect a
candidate pair for every `looks_translatable` value. -/
def collectPlistAux : Nat → List (List Char) → List (String × List Char) →
    List (List Char × Context) →
    List (String × List Char) × List (List Char × Context)
  | _, [], byKey, out => (byKey, out)
  | lineNo, line :: rest, byKey, out =>
    match searchPlist line with
    | none => collectPlistAux (lineNo + 1) rest byKey out
    | some r =>
      let byKey' := if alLookup r.1 byKey = none then byKey ++ [(r.1, r.2)] else byKey
      let out' := if looks_translatable r.2 then
          out ++ [(r.2, { file := PBX_FILE, line := lineNo,
                          kind := "InfoPlistUsageDescription".data,
                          target := "app".data })]
        else out
      collectPlistAux (lineNo + 1) rest byKey' out'

/-- Model of `collect_plist_keys` in `i18n_workflow.py` (lines 364-394):
scan the manifest lines, then fail with the sorted list of missing
required keys when either is absent (`set(by_key.keys()) != required`
holds exactly when some required key was never assigned, since the
pattern can only ever match the two required keys); the error value is
the `sorted(missing)` list embedded in the raised message.  On success
return the collected candidate pairs and the `by_key` mapping. -/
def collect_plist_keys (lines : List (List Char)) :
    Except (List String) (List (List Char × Context) × List (String × List Char)) :=
  let r := collectPlistAux 1 lines [] []
  let missing := (if alLookup K_ALWAYS r.1 = none then [K_ALWAYS] else []) ++
                 (if alLookup K_WHENINUSE r.1 = none then [K_WHENINUSE] else [])
  if missing = [] then .ok (r.2, r.1) else .error missing

/-- Model of `build_candidates` in `i18n_workflow.py`: the target
collectors produce `scanPairs`; `collect_plist_keys` aborts the build
when a required manifest key is missing, otherwise its pairs join the
grouping. -/
def build_candidates (scanPairs : List (List Char × Context))
    (pbxLines : List (List Char)) :
    Except (List String) (List Candidate × List (String × List Char)) :=
  match collect_plist_keys pbxLines with
  | .error m => .error m
  | .ok r => .ok (build_candidates_from_pairs (scanPairs ++ r.1), r.2)

/-- The translation-relevant prefix of `main` in `i18n_workflow.py`:
`build_candidates` runs first and its failure aborts the run (exit code 1)
before `translate_candidates` issues any service call; on success the
orchestrator runs over the candidates. -/
def runWorkflow (scanPairs : List (List Char × Context))
    (pbxLines : List (List Char)) (oracle : Oracle) :
    Except (List String) (List TranslationRow × Nat) :=
  match build_candidates scanPairs pbxLines with
  | .error m => .error m
  | .ok r => .ok (translate_candidates oracle r.1)

/-- A key is collected when some manifest line matches it. -/
def collectedKey (lines : List (List Char)) (k : String) : Bool :=
  lines.any (fun l =>
    match searchPlist l with
    | some r => decide (r.1 = k)
    | none => false)

/-- The sorted list of required keys absent from the manifest
(`K_ALWAYS < K_WHENINUSE` in code-point order, matching
`sorted(missing)`). -/
def missingKeys (lines : List (List Char)) : List String :=
  (if collectedKey lines K_ALWAYS then [] else [K_ALWAYS]) ++
  (if collectedKey lines K_WHENINUSE then [] else [K_WHENINUSE])

/-- A concrete manifest line assigning only the "always" permission key. -/
def pbxLineAlways : List Char :=
  "\t\tINFOPLIST_KEY_NSLocationAlwaysAndWhenInUseUsageDescription = \"Your location shows local weather.\";".data

/-- Emptiness of the result of `dropWhile` propagates to the whole list:
every element satisfies `p` iff every element after the dropped prefix
does (the dropped prefix satisfies `p` by construction). -/
theorem forall_mem_dropWhile_iff (p : Char → Bool) (l : List Char) :
    (∀ a ∈ l.dropWhile p, p a) ↔ (∀ a ∈ l, p a) := by
  induction l with
  | nil => simp
  | cons c t ih =>
    by_cases h : p c
    · simpa [List.dropWhile_cons, h] using ih
    · simp [List.dropWhile_cons, h]

/-- A string strips to empty exactly when every character is whitespace. -/
theorem pyStrip_eq_nil_iff (l : List Char) :
    pyStrip l = [] ↔ ∀ c ∈ l, isPyWs c := by
  unfold pyStrip
  rw [List.reverse_eq_nil_iff, List.dropWhile_eq_nil_iff]
  simp only [List.mem_reverse]
  exact forall_mem_dropWhile_iff isPyWs l

/-- The placeholder scanner only produces output when the text contains a
percent sign. -/
theorem percent_mem_of_findPlaceholdersAux (fuel : Nat) :
    ∀ l : List Char, findPlaceholdersAux fuel l ≠ [] → '%' ∈ l := by
  induction fuel with
  | zero => intro l h; simp [findPlaceholdersAux] at h
  | succ n ih =>
    intro l h
    cases l with
    | nil => simp [findPlaceholdersAux] at h
    | cons c rest =>
      by_cases hc : c = '%'
      · exact hc ▸ List.mem_cons_self c rest
      · rw [findPlaceholdersAux, if_neg hc] at h
        exact List.mem_cons_of_mem c (ih rest h)

/-- The interpolation scanner only produces output when the text contains
a backslash. -/
theorem backslash_mem_of_findInterpolationsAux (fuel : Nat) :
    ∀ l : List Char, findInterpolationsAux fuel l ≠ [] → '\\' ∈ l := by
  induction fuel with
  | zero => intro l h; simp [findInterpolationsAux] at h
  | succ n ih =>
    intro l h
    cases l with
    | nil => simp [findInterpolationsAux] at h
    | cons c rest =>
      by_cases hc : c = '\\'
      · exact hc ▸ List.mem_cons_self c rest
      · rw [findInterpolationsAux, if_neg hc] at h
        exact List.mem_cons_of_mem c (ih rest h)

/-- Validating a string against itself reduces to the blank check: the
three fingerprint comparisons compare a value with itself. -/
theorem validate_self (s : List Char) :
    validate_translation s s =
      if pyStrip s = [] then (false, VReason.emptyTranslation)
      else (true, VReason.ok) := by
  simp [validate_translation]

/-- C4: for every (source, candidate) pair, `validate_translation` checks
conditions in the fixed priority order (placeholder tuples, interpolation
tuples, unit sets, blank candidate) and when several mismatches co-occur
only the first failing check's reason is reported. -/
theorem validate_translation_is_first_failing (source target : List Char) :
    validate_translation source target = firstFailing (specCheckList source target) := by
  by_cases h1 : (extract_token_set source).1 = (extract_token_set target).1 <;>
  by_cases h2 : (extract_token_set source).2.1 = (extract_token_set target).2.1 <;>
  by_cases h3 : (extract_token_set source).2.2 = (extract_token_set target).2.2 <;>
  by_cases h4 : pyStrip target = [] <;>
  simp [validate_translation, specCheckList, firstFailing, h1, h2, h3, h4]

/-- C6: for every string with at least one format placeholder or at least
one interpolation span, validating the identity pair reports ok. -/
theorem validate_identity_ok (s : List Char)
    (h : (extract_token_set s).1 ≠ [] ∨ (extract_token_set s).2.1 ≠ []) :
    validate_translation s s = (true, VReason.ok) := by
  rw [validate_self, if_neg]
  intro hnil
  rw [pyStrip_eq_nil_iff] at hnil
  rcases h with h | h
  · apply h
    by_contra hne
    have hm : '%' ∈ s :=
      percent_mem_of_findPlaceholdersAux s.length s hne
    have := hnil '%' hm
    simp [isPyWs] at this
  · apply h
    by_contra hne
    have hm : '\\' ∈ s :=
      backslash_mem_of_findInterpolationsAux s.length s hne
    have := hnil '\\' hm
    simp [isPyWs] at this

/-- Witness for C6 at the spec's own scenario string. -/
theorem validate_identity_ok_witness :
    ((extract_token_set "Search %d cities".data).1 ≠ [] ∨
      (extract_token_set "Search %d cities".data).2.1 ≠ []) ∧
    validate_translation "Search %d cities".data "Search %d cities".data
      = (true, VReason.ok) :=
  ⟨Or.inl (by decide), validate_identity_ok _ (Or.inl (by decide))⟩

/-- C7: when the candidate's interpolation spans are a permutation of the
source's but in a different order (placeholders unchanged), validation
reports an interpolation mismatch. -/
theorem reordered_interpolations_mismatch (source target : List Char)
    (hp : (extract_token_set source).1 = (extract_token_set target).1)
    (_hperm : (extract_token_set target).2.1.Perm (extract_token_set source).2.1)
    (hne : (extract_token_set target).2.1 ≠ (extract_token_set source).2.1) :
    validate_translation source target =
      (false, VReason.interpolationMismatch
        (extract_token_set source).2.1 (extract_token_set target).2.1) := by
  have hne' : (extract_token_set source).2.1 ≠ (extract_token_set target).2.1 :=
    fun hEq => hne hEq.symm
  simp [validate_translation, hp, hne']

/-- Witness for C7: two interpolation spans swapped between source and
candidate. -/
theorem reordered_interpolations_mismatch_witness :
    ((extract_token_set "\\(a) and \\(b)".data).1
        = (extract_token_set "\\(b) and \\(a)".data).1) ∧
    ((extract_token_set "\\(b) and \\(a)".data).2.1.Perm
        (extract_token_set "\\(a) and \\(b)".data).2.1) ∧
    ((extract_token_set "\\(b) and \\(a)".data).2.1
        ≠ (extract_token_set "\\(a) and \\(b)".data).2.1) ∧
    validate_translation "\\(a) and \\(b)".data "\\(b) and \\(a)".data
      = (false, VReason.interpolationMismatch
          (extract_token_set "\\(a) and \\(b)".data).2.1
          (extract_token_set "\\(b) and \\(a)".data).2.1) :=
  ⟨by decide, by decide, by decide,
    reordered_interpolations_mismatch _ _ (by decide) (by decide) (by decide)⟩

/-- C9: for every blank (empty or whitespace-only) string, validating the
identity pair reports not-ok with reason "empty translation". -/
theorem blank_identity_fails_empty (s : List Char) (h : pyStrip s = []) :
    validate_translation s s = (false, VReason.emptyTranslation) ∧
    reasonText (validate_translation s s).2 = "empty translation" := by
  rw [validate_self, if_pos h]
  exact ⟨rfl, rfl⟩

/-- Witness for C9 at a whitespace-only string. -/
theorem blank_identity_fails_empty_witness :
    pyStrip "  ".data = [] ∧
    (validate_translation "  ".data "  ".data
        = (false, VReason.emptyTranslation) ∧
      reasonText (validate_translation "  ".data "  ".data).2
        = "empty translation") :=
  ⟨by decide, blank_identity_fails_empty "  ".data (by decide)⟩

/-- Setting a key makes it visible to lookup. -/
theorem alLookup_alSet_self {κ β : Type} [DecidableEq κ] (k : κ) (v : β)
    (l : List (κ × β)) : alLookup k (alSet k v l) = some v := by
  induction l with
  | nil => simp [alSet, alLookup]
  | cons p rest ih =>
    by_cases h : p.1 = k
    · simp [alSet, h, alLookup]
    · simp [alSet, h, alLookup, ih]

/-- Setting one key leaves lookups of other keys unchanged. -/
theorem alLookup_alSet_ne {κ β : Type} [DecidableEq κ] {k k' : κ} (v : β)
    (l : List (κ × β)) (h : k' ≠ k) :
    alLookup k (alSet k' v l) = alLookup k l := by
  induction l with
  | nil => simp [alSet, alLookup, h]
  | cons p rest ih =>
    by_cases hp : p.1 = k'
    · simp [alSet, hp, alLookup, h, fun hk => h (hp ▸ hk : k' = k)]
    · simp [alSet, hp, alLookup, ih]

/-- In a list of identity pairs, every member key looks up to itself. -/
theorem alLookup_map_id {α : Type} [DecidableEq α] (ps : List α) (s : α)
    (h : s ∈ ps) : alLookup s (ps.map (fun x => (x, x))) = some s := by
  induction ps with
  | nil => cases h
  | cons p rest ih =>
    by_cases hp : p = s
    · simp [alLookup, hp]
    · cases h with
      | head => exact absurd rfl hp
      | tail _ h => simp [alLookup, hp, ih h]

/-- Folding assignments whose values are determined by their keys: if the
key was ever assigned (or already carries the value), lookup returns that
value. -/
theorem alLookup_foldl_alSet {κ β : Type} [DecidableEq κ]
    (ps : List (κ × β)) (k : κ) (v : β)
    (hv : ∀ p ∈ ps, p.1 = k → p.2 = v) :
    ∀ init : List (κ × β),
      (k ∈ ps.map Prod.fst ∨ alLookup k init = some v) →
      alLookup k (ps.foldl (fun m a => alSet a.1 a.2 m) init) = some v := by
  induction ps with
  | nil =>
    intro init h
    rcases h with h | h
    · cases h
    · simpa using h
  | cons p rest ih =>
    intro init h
    have hv' : ∀ q ∈ rest, q.1 = k → q.2 = v := fun q hq => hv q (.tail _ hq)
    simp only [List.foldl_cons]
    by_cases hk : k ∈ rest.map Prod.fst
    · exact ih hv' _ (Or.inl hk)
    · apply ih hv'
      right
      by_cases hp : p.1 = k
      · rw [hp, alLookup_alSet_self]
        exact congrArg some (hv p (.head _) hp)
      · rw [alLookup_alSet_ne _ _ hp]
        rcases h with h | h
        · simp only [List.map_cons, List.mem_cons] at h
          rcases h with h | h
          · exact absurd h.symm hp
          · exact absurd h hk
        · exact h

/-- When every pending source has an identity entry in the returned
mapping and is non-blank, one validation pass finalizes every source with
its identity target and carries nothing. -/
theorem attemptStep_all_ok (translated : List (List Char × List Char))
    (pending : List (List Char))
    (h : ∀ s ∈ pending, alLookupD s s translated = s ∧ pyStrip s ≠ []) :
    attemptStep translated pending =
      (pending.map (fun s => (s, s)), [], []) := by
  induction pending with
  | nil => rfl
  | cons s rest ih =>
    obtain ⟨hid, hnb⟩ := h s (.head _)
    have hrest := ih (fun x hx => h x (.tail _ hx))
    rw [attemptStep]
    simp only [hid, hrest, validate_self, if_neg hnb]
    rfl

/-- With an identity-only service, a non-empty batch of non-blank sources
is fully finalized on the first attempt with exactly one service call:
identity translations pass validation, so no retry is triggered. -/
theorem batchLoop_identity (oracle : Oracle)
    (hid : ∀ ps fb s, s ∈ ps → alLookupD s s (oracle ps fb) = s)
    (fuel : Nat) (pending : List (List Char)) (fb : Option (List (List Char × VReason)))
    (hne : pending ≠ []) (hnb : ∀ s ∈ pending, pyStrip s ≠ []) :
    batchLoop oracle (fuel + 1) pending fb =
      (pending.map (fun s => (s, s, "ok")), 1) := by
  rw [batchLoop]
  rw [if_neg hne]
  have hstep : attemptStep (oracle pending fb) pending =
      (pending.map (fun s => (s, s)), [], []) :=
    attemptStep_all_ok _ _ (fun s hs => ⟨hid pending fb s hs, hnb s hs⟩)
  simp only [hstep]
  simp [List.map_map, Function.comp]

/-- Running batches that are all non-empty and all non-blank under an
identity-only service: every source finalizes as an identity "ok" entry
and each batch costs exactly one service call. -/
theorem runBatches_identity (oracle : Oracle)
    (hid : ∀ ps fb s, s ∈ ps → alLookupD s s (oracle ps fb) = s) :
    ∀ batches : List (List (List Char)),
      (∀ b ∈ batches, b ≠ []) →
      (∀ b ∈ batches, ∀ s ∈ b, pyStrip s ≠ []) →
      runBatches oracle batches =
        (batches.flatten.map (fun s => (s, s, "ok")), batches.length) := by
  intro batches
  induction batches with
  | nil => intro _ _; rfl
  | cons b rest ih =>
    intro hne hnb
    rw [runBatches]
    rw [batchLoop_identity oracle hid MAX_RETRIES b none (hne b (.head _))
      (hnb b (.head _))]
    rw [ih (fun x hx => hne x (.tail _ hx)) (fun x hx => hnb x (.tail _ hx))]
    simp [Nat.add_comm]

/-- Every chunk produced by `chunkedAux` with a positive size is
non-empty. -/
theorem chunkedAux_ne_nil {α : Type} (size : Nat) (hs : 1 ≤ size) :
    ∀ (fuel : Nat) (l : List α), ∀ b ∈ chunkedAux fuel l size, b ≠ [] := by
  intro fuel
  induction fuel with
  | zero =>
    intro l b hb
    cases l <;> simp [chunkedAux] at hb
  | succ n ih =>
    intro l b hb
    cases l with
    | nil => simp [chunkedAux] at hb
    | cons c rest =>
      rw [chunkedAux, List.mem_cons] at hb
      rcases hb with hb | hb
      · subst hb
        cases size with
        | zero => exact absurd hs (by omega)
        | succ m => simp
      · exact ih _ b hb

/-- The chunks of a list concatenate back to the list (for a positive
chunk size and enough fuel). -/
theorem chunkedAux_flatten {α : Type} (size : Nat) (hs : 1 ≤ size) :
    ∀ (fuel : Nat) (l : List α), l.length ≤ fuel →
      (chunkedAux fuel l size).flatten = l := by
  intro fuel
  induction fuel with
  | zero =>
    intro l hl
    have : l = [] := List.eq_nil_of_length_eq_zero (Nat.le_zero.mp hl)
    subst this
    rfl
  | succ n ih =>
    intro l hl
    cases l with
    | nil => rfl
    | cons c rest =>
      rw [chunkedAux]
      rw [List.flatten_cons]
      rw [ih ((c :: rest).drop size) (by
        have := List.length_drop size (c :: rest)
        simp only [this]
        have : (c :: rest).length = rest.length + 1 := rfl
        omega)]
      exact List.take_append_drop size (c :: rest)

/-- The identity oracle satisfies the identity-mapping hypothesis. -/
theorem idOracle_spec (ps : List (List Char))
    (fb : Option (List (List Char × VReason))) (s : List Char) (h : s ∈ ps) :
    alLookupD s s (idOracle ps fb) = s := by
  simp [idOracle, alLookupD, alLookup_map_id ps s h]

/-- C1 counterexample: it is not the case that an identity-only service
makes every candidate finalize with validation "fallback_due_to_validation"
after MAX_RETRIES + 1 calls per batch — identity translations pass
validation, so a non-blank candidate finalizes on the first attempt. -/
theorem identity_service_claim_false :
    ¬ (∀ (oracle : Oracle) (candidates : List Candidate),
        (∀ ps fb s, s ∈ ps → alLookupD s s (oracle ps fb) = s) →
        (∀ row ∈ (translate_candidates oracle candidates).1,
            row.status = "fallback" ∧ row.validation = "fallback_due_to_validation") ∧
        (translate_candidates oracle candidates).2 =
          (chunked (candidates.map Candidate.source) BATCH_SIZE).length
            * (MAX_RETRIES + 1)) := by
  intro h
  have := h idOracle [⟨"Hi".data, []⟩] (fun ps fb s hs => idOracle_spec ps fb s hs)
  exact absurd this.2 (by decide)

/-- C1 amended: with an identity-only service, every candidate whose
source is non-blank (which `looks_translatable` guarantees for every
aggregated candidate) is finalized with status "fallback" and validation
"ok", its target equal to its source, and the orchestrator makes exactly
one service call per batch — never MAX_RETRIES + 1. -/
theorem identity_service_one_call (oracle : Oracle) (candidates : List Candidate)
    (hid : ∀ ps fb s, s ∈ ps → alLookupD s s (oracle ps fb) = s)
    (hnb : ∀ c ∈ candidates, pyStrip c.source ≠ []) :
    (∀ row ∈ (translate_candidates oracle candidates).1,
        row.status = "fallback" ∧ row.validation = "ok" ∧ row.target = row.source) ∧
    (translate_candidates oracle candidates).2 =
      (chunked (candidates.map Candidate.source) BATCH_SIZE).length := by
  have hs30 : 1 ≤ BATCH_SIZE := by decide
  set l := candidates.map Candidate.source with hl
  have hlnb : ∀ s ∈ l, pyStrip s ≠ [] := by
    intro s hs
    rw [hl, List.mem_map] at hs
    obtain ⟨c, hc, rfl⟩ := hs
    exact hnb c hc
  have hbne : ∀ b ∈ chunked l BATCH_SIZE, b ≠ [] :=
    chunkedAux_ne_nil BATCH_SIZE hs30 l.length l
  have hbnb : ∀ b ∈ chunked l BATCH_SIZE, ∀ s ∈ b, pyStrip s ≠ [] := by
    intro b hb s hs
    apply hlnb
    rw [← chunkedAux_flatten BATCH_SIZE hs30 l.length l (Nat.le_refl _)]
    exact List.mem_flatten_of_mem hb hs
  have hrun := runBatches_identity oracle hid (chunked l BATCH_SIZE) hbne hbnb
  have hflat : (chunked l BATCH_SIZE).flatten = l :=
    chunkedAux_flatten BATCH_SIZE hs30 l.length l (Nat.le_refl _)
  constructor
  · intro row hrow
    rw [translate_candidates] at hrow
    simp only [hrun, hflat, List.mem_map] at hrow
    obtain ⟨cand, hcand, rfl⟩ := hrow
    have hlook : alLookup cand.source
        (((l.map (fun s => (s, s, "ok"))).foldl (fun m a => alSet a.1 a.2 m) [])) =
        some (cand.source, "ok") := by
      apply alLookup_foldl_alSet
      · intro p hp hpk
        rw [List.mem_map] at hp
        obtain ⟨s, _, rfl⟩ := hp
        simp only at hpk
        rw [hpk]
      · left
        have hmaps : (l.map (fun s => ((s : List Char), s, "ok"))).map Prod.fst = l := by
          rw [List.map_map]
          exact List.map_id l
        rw [hmaps, hl]
        exact List.mem_map_of_mem Candidate.source hcand
    simp [alLookupD, hlook]
  · rw [translate_candidates]
    simp only [hrun]

/-- Witness for the amended C1 at a one-candidate batch under the
identity oracle. -/
theorem identity_service_one_call_witness :
    (∀ c ∈ [Candidate.mk "Hi".data []], pyStrip c.source ≠ []) ∧
    ((∀ row ∈ (translate_candidates idOracle [Candidate.mk "Hi".data []]).1,
        row.status = "fallback" ∧ row.validation = "ok" ∧ row.target = row.source) ∧
      (translate_candidates idOracle [Candidate.mk "Hi".data []]).2 =
        (chunked (([Candidate.mk "Hi".data []]).map Candidate.source) BATCH_SIZE).length) :=
  ⟨by decide,
    identity_service_one_call idOracle [Candidate.mk "Hi".data []]
      (fun ps fb s hs => idOracle_spec ps fb s hs) (by decide)⟩

/-- C2 counterexample: a non-blank source with no value in the returned
mapping defaults to identity and then PASSES validation — it is finalized
on the spot rather than failing, contradicting the claim that it fails
validation. -/
theorem missing_value_claim_false :
    alLookup "Hello".data ([] : List (List Char × List Char)) = none ∧
    alLookupD "Hello".data "Hello".data ([] : List (List Char × List Char))
      = "Hello".data ∧
    (validate_translation "Hello".data "Hello".data).1 = true ∧
    attemptStep [] ["Hello".data] = ([("Hello".data, "Hello".data)], [], []) := by
  exact ⟨rfl, rfl, by decide, by decide⟩

/-- C2 amended: within one attempt, every pending source with no value in
the returned mapping defaults to identity (target = source); the identity
then passes validation unless the source is blank (empty or
whitespace-only after trimming), in which case it fails the empty-check
only. -/
theorem missing_value_defaults_identity
    (translated : List (List Char × List Char)) (pending : List (List Char))
    (h : ∀ s ∈ pending, alLookup s translated = none) :
    (∀ s ∈ pending, alLookupD s s translated = s) ∧
    attemptStep translated pending =
      ((pending.filter (fun s => pyStrip s ≠ [])).map (fun s => (s, s)),
       pending.filter (fun s => pyStrip s = []),
       (pending.filter (fun s => pyStrip s = [])).map
         (fun s => (s, VReason.emptyTranslation))) := by
  constructor
  · intro s hs
    simp [alLookupD, h s hs]
  · induction pending with
    | nil => rfl
    | cons s rest ih =>
      have hd : alLookupD s s translated = s := by
        simp [alLookupD, h s (.head _)]
      have hrest := ih (fun x hx => h x (.tail _ hx))
      rw [attemptStep]
      simp only [hd, hrest, validate_self]
      by_cases hb : pyStrip s = []
      · simp [hb]
      · simp [hb]

/-- Witness for the amended C2: one non-blank and one blank source, both
missing from the returned mapping. -/
theorem missing_value_defaults_identity_witness :
    (∀ s ∈ ["Hello".data, " ".data], alLookup s ([] : List (List Char × List Char)) = none) ∧
    ((∀ s ∈ ["Hello".data, " ".data],
        alLookupD s s ([] : List (List Char × List Char)) = s) ∧
      attemptStep [] ["Hello".data, " ".data] =
        (((["Hello".data, " ".data]).filter (fun s => pyStrip s ≠ [])).map (fun s => (s, s)),
          (["Hello".data, " ".data]).filter (fun s => pyStrip s = []),
          ((["Hello".data, " ".data]).filter (fun s => pyStrip s = [])).map
            (fun s => (s, VReason.emptyTranslation)))) :=
  ⟨by decide, missing_value_defaults_identity [] ["Hello".data, " ".data] (by decide)⟩

/-- Lexicographic code-point comparison is transitive. -/
theorem lexLe_trans : ∀ a b c : List Char,
    lexLe a b = true → lexLe b c = true → lexLe a c = true := by
  intro a
  induction a with
  | nil => intro b c _ _; rfl
  | cons x xs ih =>
    intro b c hab hbc
    cases b with
    | nil => exact absurd hab (by simp [lexLe])
    | cons y ys =>
      cases c with
      | nil => exact absurd hbc (by simp [lexLe])
      | cons z zs =>
        rw [lexLe] at hab hbc ⊢
        by_cases h1 : x.toNat < y.toNat
        · by_cases h2 : y.toNat < z.toNat
          · rw [if_pos (by omega : x.toNat < z.toNat)]
          · rw [if_neg h2] at hbc
            by_cases h2' : z.toNat < y.toNat
            · rw [if_pos h2'] at hbc; exact absurd hbc (by simp)
            · rw [if_pos (by omega : x.toNat < z.toNat)]
        · rw [if_neg h1] at hab
          by_cases h1' : y.toNat < x.toNat
          · rw [if_pos h1'] at hab; exact absurd hab (by simp)
          · rw [if_neg h1'] at hab
            by_cases h2 : y.toNat < z.toNat
            · rw [if_pos (by omega : x.toNat < z.toNat)]
            · rw [if_neg h2] at hbc
              by_cases h2' : z.toNat < y.toNat
              · rw [if_pos h2'] at hbc; exact absurd hbc (by simp)
              · rw [if_neg h2'] at hbc
                rw [if_neg (by omega : ¬ x.toNat < z.toNat),
                  if_neg (by omega : ¬ z.toNat < x.toNat)]
                exact ih ys zs hab hbc

/-- Lexicographic code-point comparison is total. -/
theorem lexLe_total : ∀ a b : List Char, (lexLe a b || lexLe b a) = true := by
  intro a
  induction a with
  | nil => intro b; rfl
  | cons x xs ih =>
    intro b
    cases b with
    | nil => simp [lexLe]
    | cons y ys =>
      rw [lexLe, lexLe]
      by_cases h1 : x.toNat < y.toNat
      · simp [h1]
      · by_cases h2 : y.toNat < x.toNat
        · simp [h1, h2]
        · simp [h1, h2, ih ys]

/-- Case-insensitive comparison is transitive. -/
theorem ciLe_trans (a b c : List Char) (hab : ciLe a b = true)
    (hbc : ciLe b c = true) : ciLe a c = true :=
  lexLe_trans _ _ _ hab hbc

/-- Case-insensitive comparison is total. -/
theorem ciLe_total (a b : List Char) : (ciLe a b || ciLe b a) = true :=
  lexLe_total _ _

/-- Membership in an insertion. -/
theorem mem_orderedInsertB {α : Type} (le : α → α → Bool) (x : α)
    (l : List α) (z : α) : z ∈ orderedInsertB le x l ↔ z = x ∨ z ∈ l := by
  induction l with
  | nil => simp [orderedInsertB]
  | cons y ys ih =>
    by_cases h : le x y
    · simp only [orderedInsertB, if_pos h, List.mem_cons]
    · simp only [orderedInsertB, if_neg h, List.mem_cons, ih]
      tauto

/-- Inserting into a sorted list keeps it sorted (for a total and
transitive comparison). -/
theorem pairwise_orderedInsertB {α : Type} (le : α → α → Bool)
    (htrans : ∀ a b c, le a b = true → le b c = true → le a c = true)
    (htotal : ∀ a b, (le a b || le b a) = true)
    (x : α) (l : List α) (h : l.Pairwise (fun a b => le a b = true)) :
    (orderedInsertB le x l).Pairwise (fun a b => le a b = true) := by
  induction l with
  | nil => simp [orderedInsertB]
  | cons y ys ih =>
    rw [List.pairwise_cons] at h
    by_cases hxy : le x y
    · rw [orderedInsertB, if_pos hxy]
      rw [List.pairwise_cons]
      refine ⟨?_, List.pairwise_cons.mpr h⟩
      intro z hz
      cases hz with
      | head => exact hxy
      | tail _ hz => exact htrans x y z hxy (h.1 z hz)
    · rw [orderedInsertB, if_neg hxy]
      rw [List.pairwise_cons]
      have hyx : le y x = true := by
        have := htotal x y
        rw [Bool.or_eq_true] at this
        rcases this with h' | h'
        · exact absurd h' hxy
        · exact h'
      refine ⟨?_, ih h.2⟩
      intro z hz
      rw [mem_orderedInsertB] at hz
      rcases hz with rfl | hz
      · exact hyx
      · exact h.1 z hz

/-- The result of `pySorted` is sorted for a total and transitive
comparison. -/
theorem pairwise_pySorted {α : Type} (le : α → α → Bool)
    (htrans : ∀ a b c, le a b = true → le b c = true → le a c = true)
    (htotal : ∀ a b, (le a b || le b a) = true)
    (l : List α) : (pySorted le l).Pairwise (fun a b => le a b = true) := by
  induction l with
  | nil => simp [pySorted]
  | cons x xs ih =>
    exact pairwise_orderedInsertB le htrans htotal x (pySorted le xs) ih

/-- Inserting an element that precedes a sorted list leaves it in front. -/
theorem orderedInsertB_of_le {α : Type} (le : α → α → Bool) (x : α)
    (l : List α) (h : ∀ z ∈ l, le x z = true) :
    orderedInsertB le x l = x :: l := by
  cases l with
  | nil => rfl
  | cons y ys => rw [orderedInsertB, if_pos (h y (.head _))]

/-- Sorting an already sorted list is the identity. -/
theorem pySorted_of_pairwise {α : Type} (le : α → α → Bool) :
    ∀ l : List α, l.Pairwise (fun a b => le a b = true) → pySorted le l = l := by
  intro l
  induction l with
  | nil => intro _; rfl
  | cons x xs ih =>
    intro h
    rw [List.pairwise_cons] at h
    show orderedInsertB le x (pySorted le xs) = x :: xs
    rw [ih h.2]
    exact orderedInsertB_of_le le x xs h.1

/-- Insertion is a permutation of consing. -/
theorem orderedInsertB_perm {α : Type} (le : α → α → Bool) (x : α) :
    ∀ l : List α, (orderedInsertB le x l).Perm (x :: l) := by
  intro l
  induction l with
  | nil => simp [orderedInsertB]
  | cons y ys ih =>
    by_cases h : le x y
    · rw [orderedInsertB, if_pos h]
    · rw [orderedInsertB, if_neg h]
      exact (ih.cons y).trans (List.Perm.swap x y ys)

/-- Sorting permutes the input. -/
theorem pySorted_perm {α : Type} (le : α → α → Bool) :
    ∀ l : List α, (pySorted le l).Perm l := by
  intro l
  induction l with
  | nil => exact List.Perm.refl _
  | cons x xs ih =>
    exact (orderedInsertB_perm le x (pySorted le xs)).trans (ih.cons x)

/-- C3 counterexample: `extract_candidates` sorts by case-sensitive code
points, so with sources "a" and "B" it returns ["B", "a"], which is not
in case-insensitive lexical order ("a" should precede "B"). -/
theorem aggregator_order_claim_false :
    (extract_candidates [("a".data, sampleCtx), ("B".data, sampleCtx)] "en".data).map
        Candidate.source = ["B".data, "a".data] ∧
    ¬ ((extract_candidates [("a".data, sampleCtx), ("B".data, sampleCtx)] "en".data).map
        Candidate.source).Pairwise (fun a b => ciLe a b = true) := by
  exact ⟨by decide, by decide⟩

/-- C3 amended: `build_candidates` (i18n_workflow) returns Candidates
sorted by case-insensitive lexical order of source text, while
`extract_candidates` (localize_with_openai) returns them sorted by
case-sensitive code-point order; both aggregations are pure functions of
the scanned pairs, so two scans of unchanged artifacts produce identical
order. -/
theorem aggregator_orders (pairs pairs2 : List (List Char × Context))
    (slang : List Char) :
    ((build_candidates_from_pairs pairs).map Candidate.source).Pairwise
        (fun a b => ciLe a b = true) ∧
    ((extract_candidates pairs2 slang).map Candidate.source).Pairwise
        (fun a b => lexLe a b = true) ∧
    (∀ q : List (List Char × Context), q = pairs →
      build_candidates_from_pairs q = build_candidates_from_pairs pairs) := by
  refine ⟨?_, ?_, fun q hq => hq ▸ rfl⟩
  · have hs : (pySorted (fun a b => ciLe a.1 b.1) (groupPairs pairs)).Pairwise
        (fun a b => ciLe a.1 b.1 = true) :=
      pairwise_pySorted (fun a b => ciLe a.1 b.1)
        (fun (a b c : List Char × List Context) hab hbc =>
          ciLe_trans a.1 b.1 c.1 hab hbc)
        (fun (a b : List Char × List Context) => ciLe_total a.1 b.1)
        (groupPairs pairs)
    rw [build_candidates_from_pairs, List.map_map]
    exact List.Pairwise.map _ (fun a b h => h) hs
  · have hs : (pySorted (fun a b => lexLe a.1 b.1)
        (pairs2.foldl (fun acc p =>
          if pyStrip p.1 = [] then acc
          else if ¬ should_include_for_source_lang p.1 slang then acc
          else alAppendGroup p.1 p.2 acc) [])).Pairwise
        (fun a b => lexLe a.1 b.1 = true) :=
      pairwise_pySorted (fun a b => lexLe a.1 b.1)
        (fun (a b c : List Char × List Context) hab hbc =>
          lexLe_trans a.1 b.1 c.1 hab hbc)
        (fun (a b : List Char × List Context) => lexLe_total a.1 b.1) _
    rw [extract_candidates, List.map_map]
    exact List.Pairwise.map _ (fun a b h => h) hs

/-- Witness for the amended C3 at concrete scan pairs. -/
theorem aggregator_orders_witness :
    ((build_candidates_from_pairs [("b".data, sampleCtx), ("A".data, sampleCtx)]).map
        Candidate.source).Pairwise (fun a b => ciLe a b = true) ∧
    ((extract_candidates [("b".data, sampleCtx), ("A".data, sampleCtx)] "en".data).map
        Candidate.source).Pairwise (fun a b => lexLe a b = true) ∧
    (∀ q : List (List Char × Context), q = [("b".data, sampleCtx), ("A".data, sampleCtx)] →
      build_candidates_from_pairs q =
        build_candidates_from_pairs [("b".data, sampleCtx), ("A".data, sampleCtx)]) :=
  aggregator_orders [("b".data, sampleCtx), ("A".data, sampleCtx)]
    [("b".data, sampleCtx), ("A".data, sampleCtx)] "en".data

/-- Re-assigning the value a key already holds leaves the list unchanged. -/
theorem alSet_self {κ β : Type} [DecidableEq κ] (k : κ) (v : β) :
    ∀ l : List (κ × β), alLookup k l = some v → alSet k v l = l := by
  intro l
  induction l with
  | nil => intro h; simp [alLookup] at h
  | cons p rest ih =>
    intro h
    by_cases hp : p.1 = k
    · rw [alLookup, if_pos hp] at h
      have hv : p.2 = v := Option.some_injective _ h
      rw [alSet]
      rw [if_pos hp, ← hp, ← hv]
    · rw [alLookup, if_neg hp] at h
      rw [alSet]
      rw [if_neg hp, ih h]

/-- Lookup fails exactly when the key is absent. -/
theorem alLookup_eq_none_iff {κ β : Type} [DecidableEq κ] (k : κ) :
    ∀ l : List (κ × β), alLookup k l = none ↔ k ∉ l.map Prod.fst := by
  intro l
  induction l with
  | nil => simp [alLookup]
  | cons p rest ih =>
    by_cases hp : p.1 = k
    · simp [alLookup, hp]
    · rw [alLookup, if_neg hp, ih]
      simp only [List.map_cons, List.mem_cons]
      constructor
      · intro h hor
        rcases hor with hor | hor
        · exact hp hor.symm
        · exact h hor
      · intro h hm
        exact h (Or.inr hm)

/-- Setting an existing key preserves the key list. -/
theorem alSet_map_fst_mem {κ β : Type} [DecidableEq κ] (k : κ) (v : β) :
    ∀ l : List (κ × β), k ∈ l.map Prod.fst →
      (alSet k v l).map Prod.fst = l.map Prod.fst := by
  intro l
  induction l with
  | nil => intro h; cases h
  | cons p rest ih =>
    intro h
    by_cases hp : p.1 = k
    · rw [alSet]
      rw [if_pos hp]
      simp [hp]
    · rw [alSet]
      rw [if_neg hp]
      simp only [List.map_cons]
      rw [ih (by
        simp only [List.map_cons, List.mem_cons] at h
        rcases h with h | h
        · exact absurd h.symm hp
        · exact h)]

/-- Setting a new key appends it to the key list. -/
theorem alSet_map_fst_not_mem {κ β : Type} [DecidableEq κ] (k : κ) (v : β) :
    ∀ l : List (κ × β), k ∉ l.map Prod.fst →
      (alSet k v l).map Prod.fst = l.map Prod.fst ++ [k] := by
  intro l
  induction l with
  | nil => intro _; rfl
  | cons p rest ih =>
    intro h
    simp only [List.map_cons, List.mem_cons] at h
    push_neg at h
    rw [alSet]
    rw [if_neg (fun hp => h.1 hp.symm)]
    simp only [List.map_cons]
    rw [ih h.2]
    rfl

/-- `alSet` preserves distinctness of keys. -/
theorem alSet_nodup_keys {κ β : Type} [DecidableEq κ] (k : κ) (v : β)
    (l : List (κ × β)) (h : (l.map Prod.fst).Nodup) :
    ((alSet k v l).map Prod.fst).Nodup := by
  by_cases hk : k ∈ l.map Prod.fst
  · rw [alSet_map_fst_mem k v l hk]
    exact h
  · rw [alSet_map_fst_not_mem k v l hk]
    simp [List.nodup_append, h, hk]

/-- Lookup in a duplicate-free association list is invariant under
permutation (json objects have unique keys, and CPython dict semantics
produce duplicate-free lists; the sort of the catalog writer is such a
permutation). -/
theorem alLookup_perm {κ β : Type} [DecidableEq κ] (k : κ)
    {l l' : List (κ × β)} (h : l.Perm l') (hnd : (l.map Prod.fst).Nodup) :
    alLookup k l = alLookup k l' := by
  induction h with
  | nil => rfl
  | cons x h ih =>
    simp only [List.map_cons, List.nodup_cons] at hnd
    by_cases hx : x.1 = k
    · rw [alLookup, alLookup, if_pos hx, if_pos hx]
    · rw [alLookup, alLookup, if_neg hx, if_neg hx]
      exact ih hnd.2
  | swap x y l =>
    simp only [List.map_cons, List.nodup_cons, List.mem_cons] at hnd
    have hxy : y.1 ≠ x.1 := fun hEq => hnd.1 (Or.inl hEq)
    by_cases hy : y.1 = k <;> by_cases hx : x.1 = k
    · exact absurd (hy.trans hx.symm) hxy
    · simp [alLookup, hy, hx]
    · simp [alLookup, hy, hx]
    · simp [alLookup, hy, hx]
  | trans h1 h2 ih1 ih2 =>
    rw [ih1 hnd]
    exact ih2 (((h1.map Prod.fst).nodup_iff).mp hnd)

/-- The merge loop never touches entries whose key is not among the
translation keys. -/
theorem applyTranslations_lookup_not_mem (language : String) :
    ∀ (trs : List (String × String)) (strings : List (String × CatEntry))
      (n : Nat) (k : String), k ∉ trs.map Prod.fst →
      alLookup k (applyTranslations language trs strings n).1 =
        alLookup k strings := by
  intro trs
  induction trs with
  | nil => intro strings n k _; rfl
  | cons p rest ih =>
    intro strings n k hk
    simp only [List.map_cons, List.mem_cons] at hk
    push_neg at hk
    obtain ⟨p1, p2⟩ := p
    rw [applyTranslations]
    rw [ih _ _ k hk.2]
    exact alLookup_alSet_ne _ _ (fun hEq => hk.1 hEq.symm)

/-- The merge loop preserves distinctness of catalog keys. -/
theorem applyTranslations_nodup_keys (language : String) :
    ∀ (trs : List (String × String)) (strings : List (String × CatEntry))
      (n : Nat), (strings.map Prod.fst).Nodup →
      (((applyTranslations language trs strings n).1).map Prod.fst).Nodup := by
  intro trs
  induction trs with
  | nil => intro strings n h; exact h
  | cons p rest ih =>
    intro strings n h
    obtain ⟨p1, p2⟩ := p
    rw [applyTranslations]
    exact ih _ _ (alSet_nodup_keys _ _ _ h)

/-- After the merge loop, every translated key holds an entry with a
non-absent `extractionState` and the freshly written `stringUnit` for the
target language. -/
theorem applyTranslations_final (language : String) :
    ∀ (trs : List (String × String)) (strings : List (String × CatEntry))
      (n : Nat), (trs.map Prod.fst).Nodup →
      ∀ k v, (k, v) ∈ trs →
        ∃ e, alLookup k (applyTranslations language trs strings n).1 = some e ∧
          e.extractionState ≠ none ∧
          ∃ locs, e.localizations = some locs ∧
            alLookup language locs = some (translatedUnit v) := by
  intro trs
  induction trs with
  | nil => intro strings n _ k v hm; cases hm
  | cons p rest ih =>
    intro strings n hnd k v hm
    obtain ⟨p1, p2⟩ := p
    simp only [List.map_cons, List.nodup_cons] at hnd
    rw [applyTranslations]
    cases hm with
    | head =>
      rw [applyTranslations_lookup_not_mem language rest _ _ k hnd.1]
      rw [alLookup_alSet_self]
      refine ⟨_, rfl, ?_, ?_⟩
      · by_cases he : ((alLookup k strings).getD
            { extractionState := none, localizations := none }).extractionState = none <;>
          simp [he]
      · exact ⟨_, rfl, alLookup_alSet_self _ _ _⟩
    | tail _ hm => exact ih _ _ hnd.2 k v hm

/-- Re-applying translations to entries already in their final form
changes nothing: every step re-reads the value it would write and the
changed counter never moves. -/
theorem applyTranslations_noop (language : String) :
    ∀ (trs : List (String × String)) (strings : List (String × CatEntry))
      (n : Nat),
      (∀ k v, (k, v) ∈ trs →
        ∃ e, alLookup k strings = some e ∧ e.extractionState ≠ none ∧
          ∃ locs, e.localizations = some locs ∧
            alLookup language locs = some (translatedUnit v)) →
      applyTranslations language trs strings n = (strings, n) := by
  intro trs
  induction trs with
  | nil => intro strings n _; rfl
  | cons p rest ih =>
    intro strings n h
    obtain ⟨p1, p2⟩ := p
    obtain ⟨e, he, hext, locs, hlocs, hunit⟩ := h p1 p2 (.head _)
    rw [applyTranslations]
    rw [he]
    simp only [Option.getD_some, hlocs, hunit, if_neg hext]
    have hprev : ((some (translatedUnit p2)).bind LocEntry.stringUnit).bind
        StringUnit.value = some p2 := rfl
    rw [hprev]
    rw [if_neg (by simp : ¬ some p2 ≠ some p2)]
    rw [alSet_self language (translatedUnit p2) locs hunit]
    have hentry : ({ e with localizations := some locs } : CatEntry) = e := by
      rw [← hlocs]
    rw [hentry, alSet_self p1 e strings he]
    exact ih strings n (fun k v hm => h k v (.tail _ hm))

/-- `catKeyLe` is transitive. -/
theorem catKeyLe_trans (a b c : String × CatEntry) (hab : catKeyLe a b = true)
    (hbc : catKeyLe b c = true) : catKeyLe a c = true :=
  ciLe_trans _ _ _ hab hbc

/-- `catKeyLe` is total. -/
theorem catKeyLe_total (a b : String × CatEntry) :
    (catKeyLe a b || catKeyLe b a) = true :=
  ciLe_total _ _

/-- C5: merging the same finalized translation rows into a Catalog twice
is idempotent: the second merge returns the persisted catalog of the
first merge unchanged together with a changed-entry count of zero.
The key-distinctness hypotheses hold for every real input: translation
keys come from a Python dict and catalog keys from a parsed JSON object. -/
theorem update_catalog_idempotent (c0 : Option Catalog) (language : String)
    (trs : List (String × String))
    (hnd : (trs.map Prod.fst).Nodup)
    (hcat : (((c0.getD { sourceLanguage := "en", strings := [], version := "1.0" }).strings).map
        Prod.fst).Nodup) :
    update_catalog (some (update_catalog c0 language trs).1) language trs =
      ((update_catalog c0 language trs).1, 0) := by
  rw [update_catalog]
  set cat := c0.getD { sourceLanguage := "en", strings := [], version := "1.0" } with hcatdef
  set r1 := applyTranslations language trs cat.strings 0 with hr1
  have hnodup1 : ((r1.1).map Prod.fst).Nodup := by
    rw [hr1]
    exact applyTranslations_nodup_keys language trs cat.strings 0 hcat
  have hsorted : (pySorted catKeyLe r1.1).Pairwise (fun a b => catKeyLe a b = true) :=
    pairwise_pySorted catKeyLe catKeyLe_trans catKeyLe_total r1.1
  have hperm : (pySorted catKeyLe r1.1).Perm r1.1 := pySorted_perm catKeyLe r1.1
  have hnodups : ((pySorted catKeyLe r1.1).map Prod.fst).Nodup :=
    ((hperm.map Prod.fst).nodup_iff).mpr hnodup1
  have hnoop : applyTranslations language trs (pySorted catKeyLe r1.1) 0 =
      (pySorted catKeyLe r1.1, 0) := by
    apply applyTranslations_noop
    intro k v hm
    rw [alLookup_perm k hperm hnodups]
    exact applyTranslations_final language trs cat.strings 0 hnd k v hm
  rw [update_catalog]
  simp only [Option.getD_some, hnoop]
  rw [pySorted_of_pairwise catKeyLe _ hsorted]

/-- Witness for C5 at a concrete catalog and translation set. -/
theorem update_catalog_idempotent_witness :
    ((([("Hello", "Hola")] : List (String × String)).map Prod.fst).Nodup ∧
      ((((some sampleCatalog).getD
          { sourceLanguage := "en", strings := [], version := "1.0" }).strings).map
          Prod.fst).Nodup) ∧
    update_catalog (some (update_catalog (some sampleCatalog) "es" [("Hello", "Hola")]).1)
        "es" [("Hello", "Hola")] =
      ((update_catalog (some sampleCatalog) "es" [("Hello", "Hola")]).1, 0) :=
  ⟨⟨by decide, by decide⟩,
    update_catalog_idempotent (some sampleCatalog) "es" [("Hello", "Hola")]
      (by decide) (by decide)⟩

/-- C10: the merge preserves every existing string entry whose key is not
among the translation keys, but unconditionally overwrites the catalog's
top-level `sourceLanguage` to "en" and `version` to "1.0", whatever was
stored before. -/
theorem update_catalog_frame (c0 : Catalog) (language : String)
    (trs : List (String × String)) (k : String)
    (hcat : (c0.strings.map Prod.fst).Nodup)
    (hk : k ∉ trs.map Prod.fst) :
    alLookup k (update_catalog (some c0) language trs).1.strings =
        alLookup k c0.strings ∧
    (update_catalog (some c0) language trs).1.sourceLanguage = "en" ∧
    (update_catalog (some c0) language trs).1.version = "1.0" := by
  refine ⟨?_, rfl, rfl⟩
  rw [update_catalog]
  simp only [Option.getD_some]
  set r1 := applyTranslations language trs c0.strings 0 with hr1
  have hnodup1 : ((r1.1).map Prod.fst).Nodup := by
    rw [hr1]
    exact applyTranslations_nodup_keys language trs c0.strings 0 hcat
  have hperm : (pySorted catKeyLe r1.1).Perm r1.1 := pySorted_perm catKeyLe r1.1
  have hnodups : ((pySorted catKeyLe r1.1).map Prod.fst).Nodup :=
    ((hperm.map Prod.fst).nodup_iff).mpr hnodup1
  rw [alLookup_perm k hperm hnodups]
  exact applyTranslations_lookup_not_mem language trs c0.strings 0 k hk

/-- Witness for C10: the unrelated entry "Zeta" is preserved while the
top-level fields "fr"/"2.0" are overwritten to "en"/"1.0". -/
theorem update_catalog_frame_witness :
    (((sampleCatalog.strings).map Prod.fst).Nodup ∧
      "Zeta" ∉ ([("Hello", "Hola")] : List (String × String)).map Prod.fst) ∧
    (alLookup "Zeta" (update_catalog (some sampleCatalog) "es"
          [("Hello", "Hola")]).1.strings =
        alLookup "Zeta" sampleCatalog.strings ∧
      (update_catalog (some sampleCatalog) "es" [("Hello", "Hola")]).1.sourceLanguage
        = "en" ∧
      (update_catalog (some sampleCatalog) "es" [("Hello", "Hola")]).1.version
        = "1.0") :=
  ⟨⟨by decide, by decide⟩,
    update_catalog_frame sampleCatalog "es" [("Hello", "Hola")] "Zeta"
      (by decide) (by decide)⟩

/-- Lookup distributes over list append. -/
theorem alLookup_append {κ β : Type} [DecidableEq κ] (k : κ) :
    ∀ l1 l2 : List (κ × β), alLookup k (l1 ++ l2) =
      match alLookup k l1 with
      | some v => some v
      | none => alLookup k l2 := by
  intro l1 l2
  induction l1 with
  | nil => rfl
  | cons p rest ih =>
    by_cases hp : p.1 = k
    · simp [alLookup, hp]
    · simp [alLookup, hp, ih]

/-- Step equation of the line scan: a non-matching line is skipped. -/
theorem collectPlistAux_cons_none (lineNo : Nat) (line : List Char)
    (rest : List (List Char)) (byKey : List (String × List Char))
    (out : List (List Char × Context)) (hs : searchPlist line = none) :
    collectPlistAux lineNo (line :: rest) byKey out =
      collectPlistAux (lineNo + 1) rest byKey out := by
  rw [collectPlistAux, hs]

/-- Step equation of the line scan: a matching line records its key and
possibly a candidate pair. -/
theorem collectPlistAux_cons_some (lineNo : Nat) (line : List Char)
    (rest : List (List Char)) (byKey : List (String × List Char))
    (out : List (List Char × Context)) (k0 : String) (v0 : List Char)
    (hs : searchPlist line = some (k0, v0)) :
    collectPlistAux lineNo (line :: rest) byKey out =
      collectPlistAux (lineNo + 1) rest
        (if alLookup k0 byKey = none then byKey ++ [(k0, v0)] else byKey)
        (if looks_translatable v0 then
            out ++ [(v0, { file := PBX_FILE, line := lineNo,
                           kind := "InfoPlistUsageDescription".data,
                           target := "app".data })]
          else out) := by
  rw [collectPlistAux, hs]

/-- Unfolding equation for `collectedKey` on a cons. -/
theorem collectedKey_cons (line : List Char) (rest : List (List Char))
    (k : String) :
    collectedKey (line :: rest) k =
      ((match searchPlist line with
        | some r => decide (r.1 = k)
        | none => false) || collectedKey rest k) := rfl

/-- The `by_key` mapping built by the line scan lacks a key exactly when
no line matched it and the accumulator lacked it. -/
theorem collectPlistAux_byKey_none (k : String) :
    ∀ (lines : List (List Char)) (lineNo : Nat)
      (byKey : List (String × List Char)) (out : List (List Char × Context)),
      (alLookup k (collectPlistAux lineNo lines byKey out).1 = none) ↔
        (collectedKey lines k = false ∧ alLookup k byKey = none) := by
  intro lines
  induction lines with
  | nil =>
    intro lineNo byKey out
    simp [collectPlistAux, collectedKey]
  | cons line rest ih =>
    intro lineNo byKey out
    cases hs : searchPlist line with
    | none =>
      rw [collectPlistAux_cons_none _ _ _ _ _ hs, ih, collectedKey_cons, hs]
      simp
    | some r =>
      obtain ⟨k0, v0⟩ := r
      rw [collectPlistAux_cons_some _ _ _ _ _ _ _ hs, ih, collectedKey_cons, hs]
      by_cases hk : k0 = k
      · subst hk
        have hsome : alLookup k0 (if alLookup k0 byKey = none
            then byKey ++ [(k0, v0)] else byKey) ≠ none := by
          by_cases hb : alLookup k0 byKey = none
          · rw [if_pos hb, alLookup_append, hb]
            simp [alLookup]
          · rw [if_neg hb]
            exact hb
        constructor
        · intro hcon
          exact absurd hcon.2 hsome
        · intro hcon
          have h1 := hcon.1
          simp at h1
      · have hby : alLookup k (if alLookup k0 byKey = none
            then byKey ++ [(k0, v0)] else byKey) = alLookup k byKey := by
          by_cases hb : alLookup k0 byKey = none
          · rw [if_pos hb, alLookup_append]
            cases hbk : alLookup k byKey with
            | some v => rfl
            | none => simp [alLookup, hk]
          · rw [if_neg hb]
        rw [hby]
        simp [hk]

/-- Membership in a conditionally empty singleton. -/
theorem mem_if_singleton (b : Bool) (s k : String) :
    (k ∈ if b then ([] : List String) else [s]) ↔ (b = false ∧ k = s) := by
  cases b <;> simp

/-- C8: when either required manifest permission key is absent from the
manifest lines, the run fails before any translation request is issued
(the result is this same error for every service oracle, so the outcome
never depends on the translation service), and the error names exactly
the missing key(s), in sorted order. -/
theorem missing_plist_key_aborts (scanPairs : List (List Char × Context))
    (pbxLines : List (List Char)) (oracle : Oracle)
    (h : collectedKey pbxLines K_ALWAYS = false ∨
         collectedKey pbxLines K_WHENINUSE = false) :
    runWorkflow scanPairs pbxLines oracle = .error (missingKeys pbxLines) ∧
    missingKeys pbxLines ≠ [] ∧
    (∀ k, k ∈ missingKeys pbxLines ↔
      ((k = K_ALWAYS ∨ k = K_WHENINUSE) ∧ collectedKey pbxLines k = false)) := by
  have hA : alLookup K_ALWAYS (collectPlistAux 1 pbxLines [] []).1 = none ↔
      collectedKey pbxLines K_ALWAYS = false := by
    rw [collectPlistAux_byKey_none]
    simp [alLookup]
  have hW : alLookup K_WHENINUSE (collectPlistAux 1 pbxLines [] []).1 = none ↔
      collectedKey pbxLines K_WHENINUSE = false := by
    rw [collectPlistAux_byKey_none]
    simp [alLookup]
  have hmiss : ((if alLookup K_ALWAYS (collectPlistAux 1 pbxLines [] []).1 = none
        then [K_ALWAYS] else []) ++
      (if alLookup K_WHENINUSE (collectPlistAux 1 pbxLines [] []).1 = none
        then [K_WHENINUSE] else [])) = missingKeys pbxLines := by
    by_cases h1 : collectedKey pbxLines K_ALWAYS <;>
      by_cases h2 : collectedKey pbxLines K_WHENINUSE <;>
      simp [missingKeys, hA, hW, h1, h2]
  have hne : missingKeys pbxLines ≠ [] := by
    rw [missingKeys]
    rcases h with h | h <;> rw [h] <;> simp
  have hcoll : collect_plist_keys pbxLines = .error (missingKeys pbxLines) := by
    rw [collect_plist_keys]
    simp only [hmiss]
    rw [if_neg hne]
  refine ⟨?_, hne, ?_⟩
  · rw [runWorkflow, build_candidates, hcoll]
  · intro k
    rw [missingKeys]
    have e1 : (if collectedKey pbxLines K_ALWAYS then ([] : List String)
        else [K_ALWAYS]) = if collectedKey pbxLines K_ALWAYS = true then []
        else [K_ALWAYS] := rfl
    have e2 : (if collectedKey pbxLines K_WHENINUSE then ([] : List String)
        else [K_WHENINUSE]) = if collectedKey pbxLines K_WHENINUSE = true then []
        else [K_WHENINUSE] := rfl
    rw [List.mem_append]
    rw [show (k ∈ if collectedKey pbxLines K_ALWAYS then ([] : List String)
        else [K_ALWAYS]) ↔ (collectedKey pbxLines K_ALWAYS = false ∧ k = K_ALWAYS)
      from mem_if_singleton _ _ _]
    rw [show (k ∈ if collectedKey pbxLines K_WHENINUSE then ([] : List String)
        else [K_WHENINUSE]) ↔ (collectedKey pbxLines K_WHENINUSE = false ∧ k = K_WHENINUSE)
      from mem_if_singleton _ _ _]
    constructor
    · rintro (⟨hb, rfl⟩ | ⟨hb, rfl⟩)
      · exact ⟨Or.inl rfl, hb⟩
      · exact ⟨Or.inr rfl, hb⟩
    · rintro ⟨hor, hb⟩
      rcases hor with rfl | rfl
      · exact Or.inl ⟨hb, rfl⟩
      · exact Or.inr ⟨hb, rfl⟩

/-- Witness for C8: a manifest carrying only the "always" key aborts the
run naming exactly the missing "when-in-use" key. -/
theorem missing_plist_key_aborts_witness :
    (collectedKey [pbxLineAlways] K_ALWAYS = false ∨
      collectedKey [pbxLineAlways] K_WHENINUSE = false) ∧
    (runWorkflow [] [pbxLineAlways] idOracle
        = .error (missingKeys [pbxLineAlways]) ∧
      missingKeys [pbxLineAlways] ≠ [] ∧
      (∀ k, k ∈ missingKeys [pbxLineAlways] ↔
        ((k = K_ALWAYS ∨ k = K_WHENINUSE) ∧
          collectedKey [pbxLineAlways] k = false))) :=
  ⟨Or.inr (by decide),
    missing_plist_key_aborts [] [pbxLineAlways] idOracle (Or.inr (by decide))⟩
